import Mathlib

/-!
Verification of the taurus Gemini client against its design specification.

The Rust sources are embedded shallowly:

* strings (`&str`, `String`) become `List Char`; byte buffers (`Vec<u8>`,
  `&[u8]`) become `List Nat` with every element below 256;
* fallible code (`anyhow::Result`) becomes `Except Err`;
* code that can panic (`Vec::remove` out of bounds, `expect`,
  `unimplemented!`) is wrapped in `Option`, with `none` denoting the panic;
* the external `url` crate (an opaque collaborator in the spec) is modelled
  by a small `Url` structure together with `Url.parse?` / `Url.join?`
  capturing the crate's behaviour on the inputs the program feeds it:
  scheme/host/path splitting at the first `://`, rejection of an empty or
  non-alphabetic scheme, rejection of forbidden host characters, and
  RFC-3986-style relative resolution.

Each claim theorem cites the Rust function it is about.
-/

namespace Taurus

/-- Abbreviation: the characters of a Lean string literal. -/
def chars (s : String) : List Char := s.data

/-- `char::is_whitespace` from Rust: the Unicode `White_Space` property. -/
def rustIsWhitespace (c : Char) : Bool :=
  let n := c.toNat
  (0x09 ≤ n && n ≤ 0x0D) || n == 0x20 || n == 0x85 || n == 0xA0 ||
    n == 0x1680 || (0x2000 ≤ n && n ≤ 0x200A) || n == 0x2028 ||
    n == 0x2029 || n == 0x202F || n == 0x205F || n == 0x3000

/-- `str::trim` from Rust: remove whitespace from both ends. -/
def trim (s : List Char) : List Char :=
  ((s.dropWhile rustIsWhitespace).reverse.dropWhile rustIsWhitespace).reverse

/-- A UTF-8 continuation byte (`0x80 ..= 0xBF`). -/
def isCont (b : Nat) : Bool := 0x80 ≤ b && b ≤ 0xBF

/-- Admissible second byte of a three-byte UTF-8 sequence led by `b`
(excludes overlong forms for `0xE0` and surrogates for `0xED`). -/
def validSnd3 (b c : Nat) : Bool :=
  if b == 0xE0 then 0xA0 ≤ c && c ≤ 0xBF
  else if b == 0xED then 0x80 ≤ c && c ≤ 0x9F
  else isCont c

/-- Admissible second byte of a four-byte UTF-8 sequence led by `b`
(excludes overlong forms for `0xF0` and values above `U+10FFFF` for `0xF4`). -/
def validSnd4 (b c : Nat) : Bool :=
  if b == 0xF0 then 0x90 ≤ c && c ≤ 0xBF
  else if b == 0xF4 then 0x80 ≤ c && c ≤ 0x8F
  else isCont c

/-- `String::from_utf8` / `read_to_string` from Rust: strict UTF-8 decoding,
rejecting overlong encodings, surrogates and code points above `U+10FFFF`.
Returns `none` exactly where Rust reports an invalid-UTF-8 error. -/
def utf8Decode? : List Nat → Option (List Char)
  | [] => some []
  | b :: rest =>
    if b ≤ 0x7F then
      (utf8Decode? rest).map (fun s => Char.ofNat b :: s)
    else if 0xC2 ≤ b && b ≤ 0xDF then
      match rest with
      | c1 :: rest2 =>
        if isCont c1 then
          (utf8Decode? rest2).map
            (fun s => Char.ofNat ((b - 0xC0) * 0x40 + (c1 - 0x80)) :: s)
        else none
      | [] => none
    else if 0xE0 ≤ b && b ≤ 0xEF then
      match rest with
      | c1 :: c2 :: rest2 =>
        if validSnd3 b c1 && isCont c2 then
          (utf8Decode? rest2).map (fun s =>
            Char.ofNat ((b - 0xE0) * 0x1000 + (c1 - 0x80) * 0x40 + (c2 - 0x80)) :: s)
        else none
      | _ => none
    else if 0xF0 ≤ b && b ≤ 0xF4 then
      match rest with
      | c1 :: c2 :: c3 :: rest2 =>
        if validSnd4 b c1 && isCont c2 && isCont c3 then
          (utf8Decode? rest2).map (fun s =>
            Char.ofNat ((b - 0xF0) * 0x40000 + (c1 - 0x80) * 0x1000 +
              (c2 - 0x80) * 0x40 + (c3 - 0x80)) :: s)
        else none
      | _ => none
    else none

/-- Standard UTF-8 encoding of one Unicode scalar value. -/
def encodeChar (c : Char) : List Nat :=
  let n := c.toNat
  if n ≤ 0x7F then [n]
  else if n ≤ 0x7FF then [0xC0 + n / 0x40, 0x80 + n % 0x40]
  else if n ≤ 0xFFFF then
    [0xE0 + n / 0x1000, 0x80 + (n / 0x40) % 0x40, 0x80 + n % 0x40]
  else
    [0xF0 + n / 0x40000, 0x80 + (n / 0x1000) % 0x40,
      0x80 + (n / 0x40) % 0x40, 0x80 + n % 0x40]

/-- UTF-8 encoding of a string (Rust `str::as_bytes` / `String::into_bytes`). -/
def utf8Encode (s : List Char) : List Nat := (s.map encodeChar).flatten

/-- Abbreviation: the UTF-8 bytes of a Lean string literal. -/
def bytesOf (s : String) : List Nat := utf8Encode s.data

/-- ASCII letter. -/
def isAsciiAlpha (c : Char) : Bool :=
  ('a' ≤ c && c ≤ 'z') || ('A' ≤ c && c ≤ 'Z')

/-- ASCII digit. -/
def isAsciiDigit (c : Char) : Bool := '0' ≤ c && c ≤ '9'

/-- Character allowed in a URL scheme after the leading letter. -/
def isSchemeChar (c : Char) : Bool :=
  isAsciiAlpha c || isAsciiDigit c || c == '+' || c == '-' || c == '.'

/-- Code point forbidden in the host of a URL (the url crate rejects these
with an invalid-host error): C0 controls, space, `#:<>?@[\]^|`. -/
def isForbiddenHostChar (c : Char) : Bool :=
  c.toNat < 0x20 || c == ' ' || c == '#' || c == '<' || c == '>' ||
    c == '?' || c == '@' || c == '[' || c == '\\' || c == ']' ||
    c == '^' || c == '|'

/-- Splits a string at the first occurrence of `"://"`: the part before the
colon and the part after the two slashes.  `none` when no `"://"` occurs.
Used both for `str::contains("://")` and for parsing. -/
def splitAtSchemeSep : List Char → Option (List Char × List Char)
  | [] => none
  | c :: rest =>
    if c = ':' && rest.take 2 = ['/', '/'] then some ([], rest.drop 2)
    else (splitAtSchemeSep rest).map (fun p => (c :: p.1, p.2))

/-- `str::contains("://")` from Rust. -/
def hasSchemeSep (s : List Char) : Bool := (splitAtSchemeSep s).isSome

/-- The `url::Url` value, reduced to the components this program observes:
scheme, host and path.  The url crate is an external dependency; this
structure and the functions below model its behaviour on the inputs the
program produces. -/
structure Url where
  scheme : List Char
  host : List Char
  path : List Char
deriving DecidableEq, Repr

/-- `Url::parse` from the url crate, modelled for absolute URLs of shape
`scheme://host/path`: fails (as the crate does) when the scheme is empty,
does not start with a letter, or contains an invalid character, and when the
host contains a forbidden code point; otherwise splits host and path at the
first `/` after the separator. -/
def Url.parse? (s : List Char) : Option Url :=
  match splitAtSchemeSep s with
  | none => none
  | some (scheme, rest) =>
    if scheme = [] then none
    else if ¬ isAsciiAlpha (scheme.headD ' ') then none
    else if ¬ scheme.all isSchemeChar then none
    else
      let host := rest.takeWhile (fun c => c ≠ '/')
      let path := rest.dropWhile (fun c => c ≠ '/')
      if host.any isForbiddenHostChar then none else some ⟨scheme, host, path⟩

/-- Drop the last path segment of `p` (keep everything up to and including
the final `/`), the RFC 3986 merge step used for relative references. -/
def dropLastSegment (p : List Char) : List Char :=
  (p.reverse.dropWhile (fun c => c ≠ '/')).reverse

/-- `Url::join` from the url crate, modelled for the reference shapes the
program produces: empty reference keeps the base; `//authority` replaces
host and path (failing on a forbidden host character, as the crate does);
`/abs` replaces the path; `scheme:rest` is an absolute reference; anything
else is merged onto the base path RFC-3986 style. -/
def Url.join? (base : Url) (rel : List Char) : Option Url :=
  if rel = [] then some base
  else if rel.take 2 = ['/', '/'] then
    let host := (rel.drop 2).takeWhile (fun c => c ≠ '/')
    let path := (rel.drop 2).dropWhile (fun c => c ≠ '/')
    if host.any isForbiddenHostChar then none
    else some ⟨base.scheme, host, path⟩
  else if rel.headD ' ' = '/' then some ⟨base.scheme, base.host, rel⟩
  else if hasSchemeSep rel then Url.parse? rel
  else some ⟨base.scheme, base.host, dropLastSegment base.path ++ rel⟩

/-- `Vec::remove(i)` from Rust: removes and shifts left; panics (`none`)
when `i` is out of bounds. -/
def removeAt? (l : List α) (i : Nat) : Option (List α) :=
  if i < l.length then some (l.eraseIdx i) else none

/-- `GemspaceNav` from `src/app/gemspace_nav.rs`: an address vector with a
0-based cursor `position`.  (The spec describes the same state with a
1-based cursor: its `position` is this `position + 1`.) -/
structure GemspaceNav (α : Type) where
  gemspaces : List α
  position : Nat
deriving DecidableEq, Repr

/-- `GemspaceNav::new` from `src/app/gemspace_nav.rs:9`. -/
def GemspaceNav.new (a : α) : GemspaceNav α := ⟨[a], 0⟩

/-- `GemspaceNav::push` from `src/app/gemspace_nav.rs:16`: iterates
`(position + 1)..len` calling `Vec::remove(pos)` at each index (the range's
bounds are fixed before the loop while the vector shrinks under it), then
appends and advances.  `none` models the out-of-bounds panic of `remove`. -/
def GemspaceNav.push (nav : GemspaceNav α) (a : α) : Option (GemspaceNav α) :=
  ((List.range' (nav.position + 1)
      (nav.gemspaces.length - (nav.position + 1))).foldlM
    removeAt? nav.gemspaces).map
    (fun gs => ⟨gs ++ [a], nav.position + 1⟩)

/-- `GemspaceNav::current` from `src/app/gemspace_nav.rs:25`; the `expect`
panic on a missing entry is modelled by `none`. -/
def GemspaceNav.current (nav : GemspaceNav α) : Option α :=
  nav.gemspaces.get? nav.position

/-- `GemspaceNav::back` from `src/app/gemspace_nav.rs:32`. -/
def GemspaceNav.back (nav : GemspaceNav α) : GemspaceNav α :=
  if nav.position > 0 then ⟨nav.gemspaces, nav.position - 1⟩ else nav

/-- `GemspaceNav::advance` from `src/app/gemspace_nav.rs:38`. -/
def GemspaceNav.advance (nav : GemspaceNav α) : GemspaceNav α :=
  ⟨nav.gemspaces, min (nav.gemspaces.length - 1) (nav.position + 1)⟩

/-- One mutating navigation operation. -/
inductive NavOp (α : Type) where
  | push (a : α)
  | back
  | advance
deriving DecidableEq, Repr

/-- Apply one operation; `none` models a panic inside `push`. -/
def GemspaceNav.applyOp (nav : GemspaceNav α) : NavOp α → Option (GemspaceNav α)
  | .push a => nav.push a
  | .back => some nav.back
  | .advance => some nav.advance

/-- Run a sequence of operations from a starting state. -/
def GemspaceNav.runOps (nav : GemspaceNav α) (ops : List (NavOp α)) :
    Option (GemspaceNav α) :=
  ops.foldlM GemspaceNav.applyOp nav

/-- `GemspaceNav::push` iterated over a list of addresses. -/
def GemspaceNav.pushAll (nav : GemspaceNav α) (ps : List α) :
    Option (GemspaceNav α) :=
  ps.foldlM GemspaceNav.push nav

/-- The navigation-history invariant stated by the spec (§3): the sequence
is non-empty and the cursor is in bounds (`1 ≤ position ≤ length` 1-based,
i.e. `position < length` for the code's 0-based cursor). -/
def GemspaceNav.Inv (nav : GemspaceNav α) : Prop :=
  nav.gemspaces ≠ [] ∧ nav.position < nav.gemspaces.length

instance (nav : GemspaceNav α) [DecidableEq α] : Decidable nav.Inv := by
  unfold GemspaceNav.Inv; infer_instance

instance {ε α : Type} [DecidableEq ε] [DecidableEq α] :
    DecidableEq (Except ε α) := fun x y =>
  match x, y with
  | .ok a, .ok b => decidable_of_iff (a = b) (by simp)
  | .error a, .error b => decidable_of_iff (a = b) (by simp)
  | .ok _, .error _ => isFalse (fun h => Except.noConfusion h)
  | .error _, .ok _ => isFalse (fun h => Except.noConfusion h)

/-- The error taxonomy of the embedded code (the code uses `anyhow` with
message strings; here each `bail!`/`?` site gets a structured variant). -/
inductive Err where
  /-- `bail!("Invalid response code {}")` in `Client::request` — the spec's
  `ProtocolError`; carries the status token that was read. -/
  | invalidResponseCode (token : List Nat)
  /-- `bail!` in the `TryFrom` status sub-code conversions. -/
  | invalidStatusCode
  /-- invalid UTF-8 from `String::from_utf8` / `read_line` /
  `read_to_string` — the spec's `EncodingError`. -/
  | utf8Error
  /-- `Url::parse` / `Url::join` failure — the spec's
  `AddressResolutionError`. -/
  | urlParseError
deriving DecidableEq, Repr

/-- `InputStatus` from `src/client.rs:160`. -/
inductive InputStatus where
  | Normal
  | Sensitive
deriving DecidableEq, Repr

/-- `RedirectStatus` from `src/client.rs:178`. -/
inductive RedirectStatus where
  | Temporary
  | Permanent
deriving DecidableEq, Repr

/-- `TemporaryFailureStatus` from `src/client.rs:196`. -/
inductive TemporaryFailureStatus where
  | Unspecified
  | ServerUnavailable
  | CGIError
  | ProxyError
  | SlowDown
deriving DecidableEq, Repr

/-- `PermanentFailureStatus` from `src/client.rs:220`. -/
inductive PermanentFailureStatus where
  | Unspecified
  | NotFound
  | Gone
  | ProxyRequestRefused
  | BadRequest
deriving DecidableEq, Repr

/-- `ClientCertificateErrorStatus` from `src/client.rs:244`. -/
inductive ClientCertificateErrorStatus where
  | Required
  | NotAuthorized
  | NotValid
deriving DecidableEq, Repr

/-- `GeminiResponse` from `src/client.rs:132`. -/
inductive GeminiResponse where
  | Input (status : InputStatus) (prompt : List Char)
  | Success (mime : List Char) (body : List Nat)
  | Redirect (status : RedirectStatus) (url : Url)
  | TemporaryFailure (status : TemporaryFailureStatus)
      (errorMsg : Option (List Char))
  | PermanentFailure (status : PermanentFailureStatus)
      (errorMsg : Option (List Char))
  | ClientCertificateError (status : ClientCertificateErrorStatus)
      (errorMsg : Option (List Char))
deriving DecidableEq, Repr

/-- `TryFrom<&[u8]> for InputStatus` (`src/client.rs:165`): matches
`value[0..2]`.  (The Rust slice panics on input shorter than two bytes; the
one call site always passes the three-byte token.) -/
def InputStatus.tryFrom (v : List Nat) : Except Err InputStatus :=
  if v.take 2 = bytesOf "10" then .ok .Normal
  else if v.take 2 = bytesOf "11" then .ok .Sensitive
  else .error .invalidStatusCode

/-- `TryFrom<&[u8]> for RedirectStatus` (`src/client.rs:183`). -/
def RedirectStatus.tryFrom (v : List Nat) : Except Err RedirectStatus :=
  if v.take 2 = bytesOf "30" then .ok .Temporary
  else if v.take 2 = bytesOf "31" then .ok .Permanent
  else .error .invalidStatusCode

/-- `TryFrom<&[u8]> for TemporaryFailureStatus` (`src/client.rs:204`). -/
def TemporaryFailureStatus.tryFrom (v : List Nat) :
    Except Err TemporaryFailureStatus :=
  if v.take 2 = bytesOf "40" then .ok .Unspecified
  else if v.take 2 = bytesOf "41" then .ok .ServerUnavailable
  else if v.take 2 = bytesOf "42" then .ok .CGIError
  else if v.take 2 = bytesOf "43" then .ok .ProxyError
  else if v.take 2 = bytesOf "44" then .ok .SlowDown
  else .error .invalidStatusCode

/-- `TryFrom<&[u8]> for PermanentFailureStatus` (`src/client.rs:228`). -/
def PermanentFailureStatus.tryFrom (v : List Nat) :
    Except Err PermanentFailureStatus :=
  if v.take 2 = bytesOf "50" then .ok .Unspecified
  else if v.take 2 = bytesOf "51" then .ok .NotFound
  else if v.take 2 = bytesOf "52" then .ok .Gone
  else if v.take 2 = bytesOf "53" then .ok .ProxyRequestRefused
  else if v.take 2 = bytesOf "59" then .ok .BadRequest
  else .error .invalidStatusCode

/-- `TryFrom<&[u8]> for ClientCertificateErrorStatus` (`src/client.rs:250`). -/
def ClientCertificateErrorStatus.tryFrom (v : List Nat) :
    Except Err ClientCertificateErrorStatus :=
  if v.take 2 = bytesOf "60" then .ok .Required
  else if v.take 2 = bytesOf "61" then .ok .NotAuthorized
  else if v.take 2 = bytesOf "62" then .ok .NotValid
  else .error .invalidStatusCode

/-- `BufRead::read_until(b' ')` from `src/client.rs:57`: consume bytes up to
and including the first space, or everything when no space occurs before end
of stream.  Returns the consumed token and the unread remainder. -/
def readUntilSpace : List Nat → List Nat × List Nat
  | [] => ([], [])
  | b :: rest =>
    if b = 0x20 then ([0x20], rest)
    else
      let p := readUntilSpace rest
      (b :: p.1, p.2)

/-- The 8 MiB body cap of `src/client.rs:59` (`read.take(1024 * 1024 * 8)`). -/
def bodyCap : Nat := 1024 * 1024 * 8

/-- `BufRead::read_line` on a byte cursor (`src/client.rs:72`): consume
bytes up to and including the first `\n`, or everything. -/
def takeThroughNl : List Nat → List Nat × List Nat
  | [] => ([], [])
  | b :: rest =>
    if b = 0x0A then ([0x0A], rest)
    else
      let p := takeThroughNl rest
      (b :: p.1, p.2)

/-- `Option.trim().is_empty()` pattern of the failure arms
(`src/client.rs:90`): an all-whitespace message becomes `none`. -/
def optMsg (s : List Char) : Option (List Char) :=
  let t := trim s
  if t = [] then none else some t

/-- The `b"10 " | b"11 "` arm of `Client::request` (`src/client.rs:61`). -/
def mkInput (tok buffer : List Nat) : Except Err GeminiResponse :=
  match InputStatus.tryFrom tok with
  | .error e => .error e
  | .ok st =>
    match utf8Decode? buffer with
    | none => .error .utf8Error
    | some s => .ok (.Input st (trim s))

/-- The `b"20 "` arm of `Client::request` (`src/client.rs:68`): the first
line of the buffer (through `\n`) is decoded and trimmed as the MIME header;
the rest is decoded by `read_to_string` and handed on as bytes
(`body.into()`). -/
def mkSuccess (buffer : List Nat) : Except Err GeminiResponse :=
  match utf8Decode? (takeThroughNl buffer).1 with
  | none => .error .utf8Error
  | some header =>
    match utf8Decode? (takeThroughNl buffer).2 with
    | none => .error .utf8Error
    | some body => .ok (.Success (trim header) (utf8Encode body))

/-- The `b"30 " | b"31 "` arm of `Client::request` (`src/client.rs:79`),
with `auto_redirect` disabled so that the parsed redirect is returned
(`src/client.rs:85`); with the flag set the client would instead issue a
recursive network request for the parsed address. -/
def mkRedirect (tok buffer : List Nat) : Except Err GeminiResponse :=
  match RedirectStatus.tryFrom tok with
  | .error e => .error e
  | .ok st =>
    match utf8Decode? buffer with
    | none => .error .utf8Error
    | some s =>
      match Url.parse? (trim s) with
      | none => .error .urlParseError
      | some u => .ok (.Redirect st u)

/-- The `b"40 " ..` arm of `Client::request` (`src/client.rs:87`). -/
def mkTemporaryFailure (tok buffer : List Nat) : Except Err GeminiResponse :=
  match TemporaryFailureStatus.tryFrom tok with
  | .error e => .error e
  | .ok st =>
    match utf8Decode? buffer with
    | none => .error .utf8Error
    | some s => .ok (.TemporaryFailure st (optMsg s))

/-- The `b"50 " ..` arm of `Client::request` (`src/client.rs:100`). -/
def mkPermanentFailure (tok buffer : List Nat) : Except Err GeminiResponse :=
  match PermanentFailureStatus.tryFrom tok with
  | .error e => .error e
  | .ok st =>
    match utf8Decode? buffer with
    | none => .error .utf8Error
    | some s => .ok (.PermanentFailure st (optMsg s))

/-- The `b"60 " ..` arm of `Client::request` (`src/client.rs:113`). -/
def mkCertError (tok buffer : List Nat) : Except Err GeminiResponse :=
  match ClientCertificateErrorStatus.tryFrom tok with
  | .error e => .error e
  | .ok st =>
    match utf8Decode? buffer with
    | none => .error .utf8Error
    | some s => .ok (.ClientCertificateError st (optMsg s))

/-- The status tokens of the `b"10 " | b"11 "` arm. -/
def inputToks : List (List Nat) := [bytesOf "10 ", bytesOf "11 "]

/-- The status token of the `b"20 "` arm. -/
def successToks : List (List Nat) := [bytesOf "20 "]

/-- The status tokens of the `b"30 " | b"31 "` arm. -/
def redirectToks : List (List Nat) := [bytesOf "30 ", bytesOf "31 "]

/-- The status tokens of the `b"40 " ..= b"44 "` arm. -/
def tempToks : List (List Nat) :=
  [bytesOf "40 ", bytesOf "41 ", bytesOf "42 ", bytesOf "43 ", bytesOf "44 "]

/-- The status tokens of the `b"50 " ..= b"53 " | b"59 "` arm. -/
def permToks : List (List Nat) :=
  [bytesOf "50 ", bytesOf "51 ", bytesOf "52 ", bytesOf "53 ", bytesOf "59 "]

/-- The status tokens of the `b"60 " ..= b"62 "` arm. -/
def certToks : List (List Nat) := [bytesOf "60 ", bytesOf "61 ", bytesOf "62 "]

/-- The `match status.as_slice()` dispatch of `Client::request`
(`src/client.rs:60`), one arm per group of byte-string patterns. -/
def classifyToken (tok buffer : List Nat) : Except Err GeminiResponse :=
  if tok ∈ inputToks then mkInput tok buffer
  else if tok ∈ successToks then mkSuccess buffer
  else if tok ∈ redirectToks then mkRedirect tok buffer
  else if tok ∈ tempToks then mkTemporaryFailure tok buffer
  else if tok ∈ permToks then mkPermanentFailure tok buffer
  else if tok ∈ certToks then mkCertError tok buffer
  else .error (.invalidResponseCode tok)

/-- The read-and-classify part of `Client::request` (`src/client.rs:55`)
applied to the bytes the server replies with: read the status token up to
the first space, read the remainder capped at 8 MiB, and dispatch on the
token. -/
def classifyReply (bytes : List Nat) : Except Err GeminiResponse :=
  classifyToken (readUntilSpace bytes).1 ((readUntilSpace bytes).2.take bodyCap)

/-- The response category determined by a status token, abstracting the
arm of the `match` in `Client::request` that the token selects. -/
inductive TokClass where
  | input
  | success
  | redirect
  | tempFailure
  | permFailure
  | certError
  | invalid
deriving DecidableEq, Repr

/-- Which arm of the dispatch a token selects. -/
def tokenClass (tok : List Nat) : TokClass :=
  if tok ∈ inputToks then .input
  else if tok ∈ successToks then .success
  else if tok ∈ redirectToks then .redirect
  else if tok ∈ tempToks then .tempFailure
  else if tok ∈ permToks then .permFailure
  else if tok ∈ certToks then .certError
  else .invalid

/-- The category a response variant belongs to. -/
def respClass : GeminiResponse → TokClass
  | .Input .. => .input
  | .Success .. => .success
  | .Redirect .. => .redirect
  | .TemporaryFailure .. => .tempFailure
  | .PermanentFailure .. => .permFailure
  | .ClientCertificateError .. => .certError

/-- `Body` from `src/app/content.rs:8`. -/
inductive Body where
  | String (s : List Char)
  | Bytes (b : List Nat)
deriving DecidableEq, Repr

/-- `Content` from `src/app/content.rs:3`. -/
structure Content where
  mime : List Char
  body : Body
deriving DecidableEq, Repr

/-- `Content::from_mime_and_bytes` from `src/app/content.rs:14`. -/
def Content.from_mime_and_bytes (mime : List Char) (bytes : List Nat) :
    Except Err Content :=
  if (chars "text/").isPrefixOf mime then
    match utf8Decode? bytes with
    | some body => .ok ⟨mime, .String body⟩
    | none => .error .utf8Error
  else .ok ⟨mime, .Bytes bytes⟩

/-- `GemTextLine` from `src/gemtext.rs:10`. -/
inductive GemTextLine where
  | Text (s : List Char)
  | Link (url : Url) (text : List Char)
  | PreFormatted (s : List Char)
deriving DecidableEq, Repr

/-- `str::strip_prefix` from Rust: the remainder after `pat`, when `s`
starts with `pat`. -/
def stripStart (pat s : List Char) : Option (List Char) :=
  if pat.isPrefixOf s then some (s.drop pat.length) else none

/-- `str::split_once("\n")` from `src/gemtext.rs:22`: the part before the
first `\n` and the part after it; `none` when `s` has no `\n`. -/
def splitOnceNl : List Char → Option (List Char × List Char)
  | [] => none
  | c :: rest =>
    if c = '\n' then some ([], rest)
    else (splitOnceNl rest).map (fun p => (c :: p.1, p.2))

/-- `str::split_once(|x: char| x.is_whitespace())` from `src/gemtext.rs:33`:
split at the first whitespace character, which belongs to neither part. -/
def splitOnceWs : List Char → Option (List Char × List Char)
  | [] => none
  | c :: rest =>
    if rustIsWhitespace c then some ([], rest)
    else (splitOnceWs rest).map (fun p => (c :: p.1, p.2))

/-- The per-line classification inside `GemTextParser::parse_next`
(`src/gemtext.rs:30`): link lines are stripped of `"=>"`, trimmed, split at
the first whitespace (falling back to the *untrimmed* remainder and an empty
label), and resolved with `Url::join` unless they contain `"://"`, in which
case `Url::parse` is used; fenced lines keep the remainder after the three
backticks; everything else is verbatim text. -/
def classifyLine (line : List Char) (base : Url) : Except Err GemTextLine :=
  match stripStart (chars "=>") line with
  | some linkLine =>
    let p := match splitOnceWs (trim linkLine) with
      | some q => q
      | none => (linkLine, [])
    if ¬ hasSchemeSep p.1 then
      match Url.join? base (trim p.1) with
      | some u => .ok (.Link u p.2)
      | none => .error .urlParseError
    else
      match Url.parse? (trim p.1) with
      | some u => .ok (.Link u p.2)
      | none => .error .urlParseError
  | none =>
    match stripStart (chars "```") line with
    | some pre => .ok (.PreFormatted pre)
    | none => .ok (.Text line)

/-- Iterating `GemTextParser::next` (`src/gemtext.rs:56`) with explicit
fuel: production stops when the remaining buffer is empty; otherwise one
line is split off at the next newline (or the whole buffer when it has no
newline, setting the remainder to the empty string) and classified.  Each
step consumes at least one character, so any fuel above the buffer length
is equivalent (`parseAllFuel_congr` below); `parseAll` supplies such fuel. -/
def parseAllFuel : Nat → List Char → Url → List (Except Err GemTextLine)
  | 0, _, _ => []
  | _ + 1, [], _ => []
  | fuel + 1, c :: rest, base =>
    match splitOnceNl (c :: rest) with
    | some (l, r) => classifyLine l base :: parseAllFuel fuel r base
    | none => [classifyLine (c :: rest) base]

/-- The full line sequence the `GemTextParser` iterator produces for a
buffer. -/
def parseAll (rawText : List Char) (base : Url) :
    List (Except Err GemTextLine) :=
  parseAllFuel (rawText.length + 1) rawText base

/-- `AppStatus` from `src/app/mod.rs:37` (the spec calls the fourth state
`AwaitingInput`). -/
inductive AppStatus where
  | Browsing
  | Typing (text : List Char)
  | Loading
  | Input (text : List Char)
deriving DecidableEq, Repr

/-- The fields of `App` (`src/app/mod.rs:29`) that `load_site` reads or
writes, with the stateless client replaced by the response oracle passed to
`loadSite`. -/
structure AppModel where
  nav : GemspaceNav Url
  content : Option Content
  scroll : Nat × Nat
  status : AppStatus
deriving DecidableEq, Repr

/-- `App::load_site` from `src/app/mod.rs:283`.  `oracle` stands for
`self.client.request`, mapping the requested address to that call's result;
the returned list records each address a request was issued for.  The outer
`Option` models the panics: `expect` inside `current()` and the
`unimplemented!` arm for redirect/failure/certificate responses. -/
def loadSite (oracle : Url → Except Err GeminiResponse) (st : AppModel) :
    Option (Except Err AppModel × List Url) :=
  match st.nav.current with
  | none => none
  | some u =>
    match oracle u with
    | .error e => some (.error e, [u])
    | .ok (.Success mime body) =>
      match Content.from_mime_and_bytes mime body with
      | .ok c =>
        some (.ok { st with content := some c, status := .Browsing }, [u])
      | .error e => some (.error e, [u])
    | .ok (.Input _ prompt) =>
      some (.ok { st with
        content := some ⟨chars "text/plain", .String prompt⟩,
        status := .Input [] }, [u])
    | .ok _ => none

end Taurus

namespace Taurus

theorem length_of_removeAt {α : Type} (l m : List α) (i : Nat)
    (h : removeAt? l i = some m) : m.length + 1 = l.length := by
  unfold removeAt? at h
  split at h
  · rename_i hi
    injection h with h
    subst h
    rw [List.length_eraseIdx, if_pos hi]
    omega
  · exact Option.noConfusion h

theorem length_foldlM_removeAt {α : Type} :
    ∀ (r : List Nat) (l l2 : List α),
      r.foldlM removeAt? l = some l2 → l2.length + r.length = l.length := by
  intro r
  induction r with
  | nil =>
    intro l l2 h
    rw [List.foldlM_nil] at h
    injection h with h
    subst h
    rfl
  | cons i r ih =>
    intro l l2 h
    rw [List.foldlM_cons] at h
    cases hm : removeAt? l i with
    | none => rw [hm] at h; exact Option.noConfusion h
    | some m =>
      rw [hm] at h
      have h2 := ih m l2 h
      have h3 := length_of_removeAt l m i hm
      simp only [List.length_cons]
      omega

theorem inv_push {α : Type} (nav nav2 : GemspaceNav α) (a : α)
    (hInv : nav.Inv) (h : nav.push a = some nav2) : nav2.Inv := by
  unfold GemspaceNav.push at h
  cases hf : (List.range' (nav.position + 1)
      (nav.gemspaces.length - (nav.position + 1))).foldlM
      removeAt? nav.gemspaces with
  | none => rw [hf] at h; exact Option.noConfusion h
  | some gs =>
    rw [hf] at h
    simp only [Option.map_some'] at h
    injection h with h
    subst h
    have hlen := length_foldlM_removeAt _ _ _ hf
    rw [List.length_range'] at hlen
    obtain ⟨-, hpos⟩ := hInv
    constructor
    · simp
    · simp only [List.length_append, List.length_cons, List.length_nil]
      omega

theorem inv_applyOp {α : Type} (nav nav2 : GemspaceNav α) (op : NavOp α)
    (hInv : nav.Inv) (h : nav.applyOp op = some nav2) : nav2.Inv := by
  obtain ⟨hne, hpos⟩ := hInv
  cases op with
  | push a => exact inv_push nav nav2 a ⟨hne, hpos⟩ h
  | back =>
    unfold GemspaceNav.applyOp at h
    injection h with h
    subst h
    unfold GemspaceNav.back
    split
    · refine ⟨hne, ?_⟩
      show nav.position - 1 < nav.gemspaces.length
      omega
    · exact ⟨hne, hpos⟩
  | advance =>
    unfold GemspaceNav.applyOp at h
    injection h with h
    subst h
    have hlp : 0 < nav.gemspaces.length := List.length_pos.mpr hne
    refine ⟨hne, ?_⟩
    show min (nav.gemspaces.length - 1) (nav.position + 1) < nav.gemspaces.length
    omega

theorem inv_runOps {α : Type} :
    ∀ (ops : List (NavOp α)) (nav0 nav : GemspaceNav α),
      nav0.Inv → nav0.runOps ops = some nav → nav.Inv := by
  intro ops
  induction ops with
  | nil =>
    intro nav0 nav h0 h
    unfold GemspaceNav.runOps at h
    rw [List.foldlM_nil] at h
    injection h with h
    subst h
    exact h0
  | cons op ops ih =>
    intro nav0 nav h0 h
    unfold GemspaceNav.runOps at h
    rw [List.foldlM_cons] at h
    cases hm : nav0.applyOp op with
    | none => rw [hm] at h; exact Option.noConfusion h
    | some nav1 =>
      rw [hm] at h
      exact ih nav1 nav (inv_applyOp nav0 nav1 op h0 hm) h

theorem current_isSome_of_inv {α : Type} (nav : GemspaceNav α)
    (hInv : nav.Inv) : nav.current.isSome := by
  unfold GemspaceNav.current
  rw [List.get?_eq_getElem?]
  simp [List.getElem?_eq_getElem hInv.2]

/-- C1: the claim says `push` discards a forward branch of any length; the
code (`GemspaceNav::push`, `src/app/gemspace_nav.rs:16`) instead walks the
fixed index range `(position + 1)..len` while `Vec::remove` keeps shifting
the vector under it, so from the reachable history `[0, 1, 2]` with the
cursor at the first entry, pushing panics (second `remove` is out of
bounds) instead of producing `[0, 3]` — the claim's own two-entry example
is the only forward-branch length the loop survives. -/
theorem claim_C1_push_panics_on_long_forward_branch :
    (GemspaceNav.new (0 : Nat)).runOps [.push 1, .push 2, .back, .back] =
      some ⟨[0, 1, 2], 0⟩ ∧
    GemspaceNav.push (⟨[0, 1, 2], 0⟩ : GemspaceNav Nat) 3 = none ∧
    GemspaceNav.push (⟨[0, 1], 0⟩ : GemspaceNav Nat) 2 = some ⟨[0, 2], 1⟩ := by
  decide

/-- C2: every navigation state actually produced by a sequence of
operations from a one-entry history satisfies the spec invariant — the
address sequence is non-empty and the 0-based cursor is strictly within
bounds (`1 ≤ position ≤ length` in the spec's 1-based terms) — and
`current()` succeeds on it.  (A `push` onto a forward branch of two or more
entries panics, cf. C1, producing no state at all; every completed sequence
satisfies the invariant.) -/
theorem claim_C2_nav_invariant {α : Type} (a : α) (ops : List (NavOp α))
    (nav : GemspaceNav α) (h : (GemspaceNav.new a).runOps ops = some nav) :
    nav.Inv ∧ nav.current.isSome := by
  have h0 : (GemspaceNav.new a).Inv := ⟨by simp [GemspaceNav.new], by simp [GemspaceNav.new]⟩
  have hInv := inv_runOps ops (GemspaceNav.new a) nav h0 h
  exact ⟨hInv, current_isSome_of_inv nav hInv⟩

theorem claim_C2_witness :
    (GemspaceNav.new (0 : Nat)).runOps [.push 1, .back, .advance] =
      some ⟨[0, 1], 1⟩ ∧
    (⟨[0, 1], 1⟩ : GemspaceNav Nat).Inv ∧
    (⟨[0, 1], 1⟩ : GemspaceNav Nat).current.isSome :=
  ⟨by decide, claim_C2_nav_invariant 0 [.push 1, .back, .advance] _ (by decide)⟩

theorem push_at_end {α : Type} (l : List α) (a : α) (h : l ≠ []) :
    GemspaceNav.push ⟨l, l.length - 1⟩ a = some ⟨l ++ [a], l.length⟩ := by
  have h1 : l.length - 1 + 1 = l.length :=
    Nat.succ_pred_eq_of_pos (List.length_pos.mpr h)
  unfold GemspaceNav.push
  simp only [h1, Nat.sub_self]
  rw [show (List.range' l.length 0 : List Nat) = [] from rfl, List.foldlM_nil]
  rfl

theorem pushAll_from_end {α : Type} :
    ∀ (ps l : List α), l ≠ [] →
      GemspaceNav.pushAll ⟨l, l.length - 1⟩ ps =
        some ⟨l ++ ps, (l ++ ps).length - 1⟩ := by
  intro ps
  induction ps with
  | nil =>
    intro l h
    unfold GemspaceNav.pushAll
    rw [List.foldlM_nil, List.append_nil]
    rfl
  | cons p ps ih =>
    intro l h
    unfold GemspaceNav.pushAll
    rw [List.foldlM_cons, push_at_end l p h]
    show ps.foldlM GemspaceNav.push ⟨l ++ [p], l.length⟩ =
      some ⟨l ++ p :: ps, (l ++ p :: ps).length - 1⟩
    have h3 : (l ++ [p]).length - 1 = l.length := by simp
    have h4 := ih (l ++ [p]) (by simp)
    unfold GemspaceNav.pushAll at h4
    rw [h3] at h4
    rw [h4]
    have h5 : l ++ [p] ++ ps = l ++ p :: ps := by
      rw [List.append_assoc]
      rfl
    rw [h5]

theorem get?_length_of_getLast? {α : Type} :
    ∀ (ps : List α) (p a : α),
      ps.getLast? = some p → (a :: ps).get? ps.length = some p := by
  intro ps
  induction ps with
  | nil => intro p a h; cases h
  | cons x ps ih =>
    intro p a h
    cases ps with
    | nil =>
      injection h with h
      subst h
      rfl
    | cons y t =>
      have h2 : (y :: t).getLast? = some p := by
        rwa [List.getLast?_cons_cons] at h
      have h3 := ih p x h2
      simpa using h3

/-- C8: from a one-entry history, pushing `p1..pn` in order (every push
lands at the end of the vector, so the removal loop of C1 is empty) leaves
`current()` equal to `pn`, and one `back()` followed by one `advance()`
returns the cursor to `pn` (`GemspaceNav`, `src/app/gemspace_nav.rs:16`). -/
theorem claim_C8_pushes_then_back_advance {α : Type} (a : α) (ps : List α)
    (p : α) (h : ps.getLast? = some p) :
    ∃ nav, (GemspaceNav.new a).pushAll ps = some nav ∧
      nav.current = some p ∧ nav.back.advance.current = some p := by
  have hne : ps ≠ [] := by intro he; subst he; cases h
  have hl : 0 < ps.length := List.length_pos.mpr hne
  have h1 := pushAll_from_end ps [a] (by simp)
  refine ⟨⟨[a] ++ ps, ([a] ++ ps).length - 1⟩, h1, ?_, ?_⟩
  · show ([a] ++ ps).get? (([a] ++ ps).length - 1) = some p
    simp only [List.singleton_append, List.length_cons, Nat.add_sub_cancel]
    exact get?_length_of_getLast? ps p a h
  · have hb : (⟨[a] ++ ps, ([a] ++ ps).length - 1⟩ : GemspaceNav α).back =
        ⟨[a] ++ ps, ps.length - 1⟩ := by
      unfold GemspaceNav.back
      simp only [List.singleton_append, List.length_cons, Nat.add_sub_cancel]
      rw [if_pos hl]
    rw [hb]
    have ha : (⟨[a] ++ ps, ps.length - 1⟩ : GemspaceNav α).advance =
        ⟨[a] ++ ps, ps.length⟩ := by
      unfold GemspaceNav.advance
      simp only [List.singleton_append, List.length_cons, Nat.add_sub_cancel]
      have h6 : ps.length - 1 + 1 = ps.length := by omega
      rw [h6, Nat.min_self]
    rw [ha]
    show ([a] ++ ps).get? ps.length = some p
    simp only [List.singleton_append]
    exact get?_length_of_getLast? ps p a h

theorem claim_C8_witness :
    ∃ nav, (GemspaceNav.new (0 : Nat)).pushAll [1, 2, 3] = some nav ∧
      nav.current = some 3 ∧ nav.back.advance.current = some 3 :=
  claim_C8_pushes_then_back_advance 0 [1, 2, 3] 3 (by decide)

theorem respClass_mkInput (t b : List Nat) (r : GeminiResponse)
    (h : mkInput t b = .ok r) : respClass r = .input := by
  unfold mkInput at h
  split at h
  · exact Except.noConfusion h
  · split at h
    · exact Except.noConfusion h
    · injection h with h
      subst h
      rfl

theorem respClass_mkSuccess (b : List Nat) (r : GeminiResponse)
    (h : mkSuccess b = .ok r) : respClass r = .success := by
  unfold mkSuccess at h
  split at h
  · exact Except.noConfusion h
  · split at h
    · exact Except.noConfusion h
    · injection h with h
      subst h
      rfl

theorem respClass_mkRedirect (t b : List Nat) (r : GeminiResponse)
    (h : mkRedirect t b = .ok r) : respClass r = .redirect := by
  unfold mkRedirect at h
  split at h
  · exact Except.noConfusion h
  · split at h
    · exact Except.noConfusion h
    · split at h
      · exact Except.noConfusion h
      · injection h with h
        subst h
        rfl

theorem respClass_mkTemporaryFailure (t b : List Nat) (r : GeminiResponse)
    (h : mkTemporaryFailure t b = .ok r) : respClass r = .tempFailure := by
  unfold mkTemporaryFailure at h
  split at h
  · exact Except.noConfusion h
  · split at h
    · exact Except.noConfusion h
    · injection h with h
      subst h
      rfl

theorem respClass_mkPermanentFailure (t b : List Nat) (r : GeminiResponse)
    (h : mkPermanentFailure t b = .ok r) : respClass r = .permFailure := by
  unfold mkPermanentFailure at h
  split at h
  · exact Except.noConfusion h
  · split at h
    · exact Except.noConfusion h
    · injection h with h
      subst h
      rfl

theorem respClass_mkCertError (t b : List Nat) (r : GeminiResponse)
    (h : mkCertError t b = .ok r) : respClass r = .certError := by
  unfold mkCertError at h
  split at h
  · exact Except.noConfusion h
  · split at h
    · exact Except.noConfusion h
    · injection h with h
      subst h
      rfl

/-- C3 (amended): `Client::request` (`src/client.rs:60`) dispatches on the
exact status token, not on its leading digit: a returned response's variant
always matches the arm its token selects (`10`/`11` Input, `20` Success,
`30`/`31` Redirect, `40`-`44` TemporaryFailure, `50`-`53`/`59`
PermanentFailure, `60`-`62` ClientCertificateError), and every other token —
including unlisted two-digit codes such as `21` or `99` — is rejected with
the invalid-response-code protocol error, fatal to that call. -/
theorem claim_C3_token_classification :
    (∀ (bytes : List Nat) (resp : GeminiResponse),
      classifyReply bytes = .ok resp →
      respClass resp = tokenClass (readUntilSpace bytes).1) ∧
    (∀ bytes : List Nat,
      tokenClass (readUntilSpace bytes).1 = .invalid →
      classifyReply bytes =
        .error (.invalidResponseCode (readUntilSpace bytes).1)) := by
  constructor
  · intro bytes resp h
    unfold classifyReply classifyToken at h
    unfold tokenClass
    split_ifs at h ⊢
    all_goals first
      | exact respClass_mkInput _ _ _ h
      | exact respClass_mkSuccess _ _ h
      | exact respClass_mkRedirect _ _ _ h
      | exact respClass_mkTemporaryFailure _ _ _ h
      | exact respClass_mkPermanentFailure _ _ _ h
      | exact respClass_mkCertError _ _ _ h
  · intro bytes h
    unfold tokenClass at h
    unfold classifyReply classifyToken
    split_ifs at h ⊢
    all_goals rfl

theorem claim_C3_witness :
    respClass (.PermanentFailure .NotFound none) =
      tokenClass (readUntilSpace (bytesOf "51 ")).1 ∧
    classifyReply (bytesOf "99 hi") =
      .error (.invalidResponseCode (readUntilSpace (bytesOf "99 hi")).1) :=
  ⟨claim_C3_token_classification.1 (bytesOf "51 ") _ (by decide),
   claim_C3_token_classification.2 (bytesOf "99 hi") (by decide)⟩

/-- C3 counterexample: the claim says any `2x` status yields `Success`, but
the reply `"21 hi"` — status code 21, leading digit 2 — is rejected by
`Client::request` with the invalid-response-code protocol error because
only the token `"20 "` is listed in the dispatch. -/
theorem claim_C3_cex_21_not_success :
    classifyReply (bytesOf "21 hi") =
      .error (.invalidResponseCode (bytesOf "21 ")) := by decide

theorem readUntilSpace_append :
    ∀ bytes : List Nat,
      (readUntilSpace bytes).1 ++ (readUntilSpace bytes).2 = bytes := by
  intro bytes
  induction bytes with
  | nil => rfl
  | cons b rest ih =>
    by_cases hb : b = (32 : Nat)
    · subst hb
      simp [readUntilSpace]
    · simp [readUntilSpace, hb, ih]

theorem readUntilSpace_two_then_space (b0 b1 : Nat) (r : List Nat)
    (h0 : b0 ≠ 32) (h1 : b1 ≠ 32) :
    readUntilSpace (b0 :: b1 :: 32 :: r) = ([b0, b1, 32], r) := by
  simp [readUntilSpace, h0, h1]

/-- C4 (amended): `Client::request` (`src/client.rs:55`) reads the status
token with `read_until(b' ')`, i.e. up to and including the first space —
which is exactly 3 bytes precisely when the reply starts with a two-digit
code followed by a space, not for arbitrary replies — and then reads the
remainder through `take(8 MiB)`: the buffer is a portion of the remainder of
length at most the cap, so no byte beyond the cap is ever read.  The last
conjunct records that `classifyReply` is built from exactly these two
reads. -/
theorem claim_C4_status_and_cap (bytes : List Nat) :
    (readUntilSpace bytes).1 ++ (readUntilSpace bytes).2 = bytes ∧
    (∀ b0 b1 r, bytes = b0 :: b1 :: 32 :: r →
      48 ≤ b0 → b0 ≤ 57 → 48 ≤ b1 → b1 ≤ 57 →
      (readUntilSpace bytes).1 = [b0, b1, 32] ∧
        (readUntilSpace bytes).1.length = 3) ∧
    ((readUntilSpace bytes).2.take bodyCap).length ≤ bodyCap ∧
    ((readUntilSpace bytes).2.take bodyCap) <+: (readUntilSpace bytes).2 ∧
    classifyReply bytes =
      classifyToken (readUntilSpace bytes).1
        ((readUntilSpace bytes).2.take bodyCap) := by
  refine ⟨readUntilSpace_append bytes, ?_, ?_, ?_, rfl⟩
  · intro b0 b1 r hb hd0 hd1 hd2 hd3
    subst hb
    have h0 : b0 ≠ 32 := by omega
    have h1 : b1 ≠ 32 := by omega
    rw [readUntilSpace_two_then_space b0 b1 r h0 h1]
    exact ⟨rfl, rfl⟩
  · exact List.length_take_le _ _
  · exact List.take_prefix _ _

theorem claim_C4_witness :
    (readUntilSpace (bytesOf "20 hi")).1 = bytesOf "20 " ∧
    (readUntilSpace (bytesOf "20 hi")).1.length = 3 := by
  have h := (claim_C4_status_and_cap (bytesOf "20 hi")).2.1 50 48
    (bytesOf "hi") (by decide) (by decide) (by decide) (by decide) (by decide)
  exact ⟨by rw [h.1]; decide, h.2⟩

/-- C4 counterexample: the claim says the status token is a fixed 3-byte
read regardless of the reply's content, but for the reply `"9999 hi"` the
`read_until(b' ')` call consumes five bytes. -/
theorem claim_C4_cex_not_fixed_three_bytes :
    (readUntilSpace (bytesOf "9999 hi")).1 = bytesOf "9999 " ∧
    (readUntilSpace (bytesOf "9999 hi")).1.length = 5 := by decide

/-- C9: the exact reply bytes `"20 text/plain\r\nhello"` classify as
`Success` with the MIME equal to the first line of the remainder trimmed of
the `\r\n`, and the body exactly the bytes after that line, undecoded
(`Client::request`, `src/client.rs:68`). -/
theorem claim_C9_success_example :
    classifyReply (bytesOf "20 text/plain\r\nhello") =
      .ok (.Success (chars "text/plain") (bytesOf "hello")) := by decide

/-- C5: `Content::from_mime_and_bytes` (`src/app/content.rs:14`) is a total
deterministic function with exactly three behaviours: a `text/`-prefixed
MIME with UTF-8-decodable bytes yields the decoded `Text` body; any other
MIME yields `Binary` with the bytes unchanged; a `text/`-prefixed MIME with
undecodable bytes yields the encoding error. -/
theorem claim_C5_content_classification (mime : List Char) (bytes : List Nat) :
    ((chars "text/").isPrefixOf mime = true →
      ∀ s, utf8Decode? bytes = some s →
        Content.from_mime_and_bytes mime bytes = .ok ⟨mime, .String s⟩) ∧
    (¬ (chars "text/").isPrefixOf mime = true →
      Content.from_mime_and_bytes mime bytes = .ok ⟨mime, .Bytes bytes⟩) ∧
    ((chars "text/").isPrefixOf mime = true → utf8Decode? bytes = none →
      Content.from_mime_and_bytes mime bytes = .error .utf8Error) := by
  unfold Content.from_mime_and_bytes
  refine ⟨?_, ?_, ?_⟩
  · intro hp s hs
    rw [if_pos hp, hs]
  · intro hp
    rw [if_neg hp]
  · intro hp hs
    rw [if_pos hp, hs]

theorem claim_C5_witness :
    Content.from_mime_and_bytes (chars "text/plain") (bytesOf "hi") =
      .ok ⟨chars "text/plain", .String (chars "hi")⟩ ∧
    Content.from_mime_and_bytes (chars "image/png") [0xFF] =
      .ok ⟨chars "image/png", .Bytes [0xFF]⟩ ∧
    Content.from_mime_and_bytes (chars "text/plain") [0xFF] =
      .error .utf8Error :=
  ⟨(claim_C5_content_classification (chars "text/plain") (bytesOf "hi")).1
      (by decide) (chars "hi") (by decide),
   (claim_C5_content_classification (chars "image/png") [0xFF]).2.1
      (by decide),
   (claim_C5_content_classification (chars "text/plain") [0xFF]).2.2
      (by decide) (by decide)⟩

theorem splitNl_app_none :
    ∀ s : List Char, splitOnceNl s = none →
      splitOnceNl (s ++ ['\n']) = some (s, []) := by
  intro s
  induction s with
  | nil => intro h; rfl
  | cons c cs ih =>
    intro h
    simp only [List.cons_append]
    unfold splitOnceNl at h ⊢
    by_cases hc : c = '\n'
    · rw [if_pos hc] at h
      exact Option.noConfusion h
    · rw [if_neg hc] at h ⊢
      cases h2 : splitOnceNl cs with
      | none =>
        rw [ih h2]
        rfl
      | some p =>
        rw [h2] at h
        exact Option.noConfusion h

theorem splitNl_app_some :
    ∀ (s : List Char) (l r : List Char), splitOnceNl s = some (l, r) →
      splitOnceNl (s ++ ['\n']) = some (l, r ++ ['\n']) := by
  intro s
  induction s with
  | nil => intro l r h; exact Option.noConfusion h
  | cons c cs ih =>
    intro l r h
    simp only [List.cons_append]
    unfold splitOnceNl at h ⊢
    by_cases hc : c = '\n'
    · rw [if_pos hc] at h ⊢
      injection h with h
      injection h with h1 h2
      subst h1
      subst h2
      rfl
    · rw [if_neg hc] at h ⊢
      cases h2 : splitOnceNl cs with
      | none =>
        rw [h2] at h
        exact Option.noConfusion h
      | some p =>
        obtain ⟨p1, p2⟩ := p
        rw [h2] at h
        injection h with h
        injection h with hl hr
        subst hl
        subst hr
        rw [ih p1 p2 h2]
        rfl

theorem splitOnceNl_eq :
    ∀ (s : List Char) (l r : List Char), splitOnceNl s = some (l, r) →
      s = l ++ '\n' :: r := by
  intro s
  induction s with
  | nil => intro l r h; exact Option.noConfusion h
  | cons c cs ih =>
    intro l r h
    unfold splitOnceNl at h
    by_cases hc : c = '\n'
    · rw [if_pos hc] at h
      injection h with h
      injection h with hl hr
      subst hl
      subst hr
      subst hc
      rfl
    · rw [if_neg hc] at h
      cases h2 : splitOnceNl cs with
      | none =>
        rw [h2] at h
        exact Option.noConfusion h
      | some p =>
        obtain ⟨p1, p2⟩ := p
        rw [h2] at h
        injection h with h
        injection h with hl hr
        subst hl
        subst hr
        simp only [List.cons_append, List.cons.injEq]
        exact ⟨trivial, ih p1 p2 h2⟩

theorem parseAllFuel_append_nl :
    ∀ (f : Nat) (s : List Char) (u : Url), s.length < f → s ≠ [] →
      s.getLast? ≠ some '\n' →
      parseAllFuel (f + 1) (s ++ ['\n']) u = parseAllFuel f s u := by
  intro f
  induction f with
  | zero => intro s u h; exact absurd h (Nat.not_lt_zero _)
  | succ m ih =>
    intro s u hlen hne hlast
    cases s with
    | nil => exact absurd rfl hne
    | cons c cs =>
      cases hs : splitOnceNl (c :: cs) with
      | none =>
        have key := splitNl_app_none (c :: cs) hs
        simp only [List.cons_append] at key ⊢
        simp only [parseAllFuel]
        rw [key, hs]
        rfl
      | some p =>
        obtain ⟨l, r⟩ := p
        have key := splitNl_app_some (c :: cs) l r hs
        have hdec := splitOnceNl_eq (c :: cs) l r hs
        simp only [List.cons_append] at key ⊢
        simp only [parseAllFuel]
        rw [key, hs]
        have hrne : r ≠ [] := by
          intro hre
          subst hre
          apply hlast
          rw [hdec]
          exact List.getLast?_concat l
        have hslast : (c :: cs).getLast? = r.getLast? := by
          rw [hdec, List.getLast?_append]
          cases r with
          | nil => exact absurd rfl hrne
          | cons a t =>
            rw [List.getLast?_cons_cons]
            cases hg : (a :: t).getLast? with
            | none => exact absurd (List.getLast?_eq_none_iff.mp hg) (by simp)
            | some x => rfl
        have hrlen : r.length < m := by
          have h9 : (c :: cs).length = l.length + 1 + r.length := by
            rw [hdec]
            simp [List.length_append]
            omega
          have h10 : (c :: cs).length < m + 1 := hlen
          simp only [List.length_cons] at h9 h10
          omega
        have h11 := ih r u hrlen hrne (by rw [← hslast]; exact hlast)
        show classifyLine l u :: parseAllFuel (m + 1) (r ++ ['\n']) u =
          classifyLine l u :: parseAllFuel m r u
        rw [h11]

/-- C6: the markup parser (`GemTextParser`, `src/gemtext.rs:21`) consumes
exactly one line per step by splitting at the next newline, stops producing
when the remaining buffer is empty, and a text ending in a single trailing
newline yields no extra empty final line (the leftover after the last split
is the empty string, which is never emitted); in particular the concrete
text of the spec's example parses to exactly the three expected lines
against base `gemini://base/`. -/
theorem claim_C6_parser_lines :
    parseAll (chars "=> gemini://x.com/ hello\ntext line\n```pre")
        ⟨chars "gemini", chars "base", chars "/"⟩ =
      [.ok (.Link ⟨chars "gemini", chars "x.com", chars "/"⟩ (chars "hello")),
       .ok (.Text (chars "text line")),
       .ok (.PreFormatted (chars "pre"))] ∧
    Url.parse? (chars "gemini://base/") =
      some ⟨chars "gemini", chars "base", chars "/"⟩ ∧
    (∀ u : Url, parseAll [] u = []) ∧
    (∀ (s : List Char) (u : Url), s ≠ [] → s.getLast? ≠ some '\n' →
      parseAll (s ++ ['\n']) u = parseAll s u) := by
  refine ⟨by decide, by decide, fun u => rfl, ?_⟩
  intro s u hne hlast
  unfold parseAll
  have hlen : (s ++ ['\n']).length = s.length + 1 := by simp
  rw [hlen]
  exact parseAllFuel_append_nl (s.length + 1) s u (by omega) hne hlast

theorem claim_C6_witness :
    parseAll (chars "abc" ++ ['\n']) ⟨[], [], []⟩ =
      parseAll (chars "abc") ⟨[], [], []⟩ :=
  claim_C6_parser_lines.2.2.2 (chars "abc") ⟨[], [], []⟩ (by decide) (by decide)

/-- C10 (amended): a link line whose content after `"=>"` has no whitespace
once trimmed and no `"://"` scheme separator is resolved against the base
address with the whole trimmed remainder as target and the empty string as
label — the missing label itself is never a parse error (the
`unwrap_or((link_line, ""))` fallback of `src/gemtext.rs:34`); the line
fails only if the resolution itself fails. -/
theorem claim_C10_unlabeled_link (line : List Char) (base : Url)
    (rest0 : List Char) (h1 : stripStart (chars "=>") line = some rest0)
    (h2 : splitOnceWs (trim rest0) = none)
    (h3 : hasSchemeSep rest0 = false) :
    classifyLine line base =
      match Url.join? base (trim rest0) with
      | some u => .ok (.Link u [])
      | none => .error .urlParseError := by
  unfold classifyLine
  simp only [h1, h2, h3]
  simp

theorem claim_C10_witness :
    classifyLine (chars "=> /a/b")
        ⟨chars "gemini", chars "b.example", chars "/dir/"⟩ =
      match Url.join? ⟨chars "gemini", chars "b.example", chars "/dir/"⟩
          (trim (chars " /a/b")) with
      | some u => .ok (.Link u [])
      | none => .error .urlParseError :=
  claim_C10_unlabeled_link (chars "=> /a/b")
    ⟨chars "gemini", chars "b.example", chars "/dir/"⟩ (chars " /a/b")
    (by decide) (by decide) (by decide)

/-- C10 counterexample: the line `"=> ://x"` has no whitespace after the
marker once trimmed, yet the parser returns a parse error rather than a
`Link`: the remainder contains `"://"`, so it is handed to `Url::parse`,
which rejects the empty scheme. -/
theorem claim_C10_cex_empty_scheme :
    classifyLine (chars "=> ://x")
        ⟨chars "gemini", chars "base", chars "/"⟩ = .error .urlParseError ∧
    splitOnceWs (trim (chars " ://x")) = none := by decide

/-- C7 (amended): `App::load_site` (`src/app/mod.rs:283`) issues exactly one
client request, for `current()`; on `Success` it stores the classifier's
`Content` and moves to `Browsing` when the classifier succeeds, and
propagates the classifier's error (content and status unchanged) when it
fails; on `Input` it stores the pseudo-page
`Content{mime:"text/plain", body:Text(prompt)}` and moves to the
awaiting-input state with an empty buffer. -/
theorem claim_C7_load_site (oracle : Url → Except Err GeminiResponse)
    (st : AppModel) (u : Url) (hcur : st.nav.current = some u)
    (_hload : st.status = .Loading) :
    (∀ res trace, loadSite oracle st = some (res, trace) → trace = [u]) ∧
    (∀ mime body c, oracle u = .ok (.Success mime body) →
      Content.from_mime_and_bytes mime body = .ok c →
      loadSite oracle st =
        some (.ok { st with content := some c, status := .Browsing }, [u])) ∧
    (∀ mime body e, oracle u = .ok (.Success mime body) →
      Content.from_mime_and_bytes mime body = .error e →
      loadSite oracle st = some (.error e, [u])) ∧
    (∀ istat prompt, oracle u = .ok (.Input istat prompt) →
      loadSite oracle st = some (.ok { st with
        content := some ⟨chars "text/plain", Body.String prompt⟩,
        status := .Input [] }, [u])) := by
  refine ⟨?_, ?_, ?_, ?_⟩
  · intro res trace h
    unfold loadSite at h
    simp only [hcur] at h
    split at h
    · injection h with h
      injection h with h1 h2
      exact h2.symm
    · split at h
      · injection h with h
        injection h with h1 h2
        exact h2.symm
      · injection h with h
        injection h with h1 h2
        exact h2.symm
    · injection h with h
      injection h with h1 h2
      exact h2.symm
    · exact Option.noConfusion h
  · intro mime body c ho hc
    unfold loadSite
    simp only [hcur, ho, hc]
  · intro mime body e ho hc
    unfold loadSite
    simp only [hcur, ho, hc]
  · intro istat prompt ho
    unfold loadSite
    simp only [hcur, ho]

theorem claim_C7_witness :
    loadSite (fun _ => .ok (.Input .Normal (chars "Q?")))
      ⟨GemspaceNav.new ⟨chars "gemini", chars "h", chars "/"⟩,
        none, (0, 0), .Loading⟩ =
      some (.ok ⟨GemspaceNav.new ⟨chars "gemini", chars "h", chars "/"⟩,
        some ⟨chars "text/plain", .String (chars "Q?")⟩, (0, 0), .Input []⟩,
        [⟨chars "gemini", chars "h", chars "/"⟩]) :=
  (claim_C7_load_site (fun _ => .ok (.Input .Normal (chars "Q?")))
    ⟨GemspaceNav.new ⟨chars "gemini", chars "h", chars "/"⟩,
      none, (0, 0), .Loading⟩
    ⟨chars "gemini", chars "h", chars "/"⟩ rfl rfl).2.2.2 .Normal
    (chars "Q?") rfl

/-- C7 counterexample: for the `Success` response with MIME `text/plain`
and the non-UTF-8 body byte `0xFF`, `load_site` does not move to `Browsing`
and stores no content: the classifier's encoding error propagates out and
the status stays `Loading`. -/
theorem claim_C7_cex_success_classifier_error :
    loadSite (fun _ => .ok (.Success (chars "text/plain") [0xFF]))
      ⟨GemspaceNav.new ⟨chars "gemini", chars "h", chars "/"⟩,
        none, (0, 0), .Loading⟩ =
      some (.error .utf8Error, [⟨chars "gemini", chars "h", chars "/"⟩]) := by
  decide

end Taurus
